import Mathlib

/-!
Formal model of the SketchKNN approximate nearest-neighbor index
implemented in src/codes/sketch.py, shallowly embedded over the rational
numbers.  Machine floats are modelled by ℚ (all the concrete inputs in
the claims are exactly representable), numpy arrays by lists, and the
fallible parts of the pipeline by Except String.  The chunked
pairwise-distance engine inherited from sklearn is modelled by its
observable behaviour: the reduce function sorts the distances of one
query row, breaks ties by ascending dataset index, keeps the requested
number of neighbors, and fails with an out-of-bounds error when numpy
argpartition is asked for a kth beyond the number of columns
(np.argpartition(dist, n - 1) requires n - 1 < dist.shape[1]).
Euclidean reranking distances are carried in squared form; the code
takes the square root of the squared euclidean distances at the very
end of the unfiltered path.
-/

/-- Sum of elementwise products, modelling the numpy dot product of two
vectors. -/
def dotProd (x y : List ℚ) : ℚ := (List.zipWith (fun a b => a * b) x y).sum

/-- Squared euclidean distance between two vectors, the metric the code
asks the distance engine for with squared=True. -/
def sqeuclidean (x y : List ℚ) : ℚ := (List.zipWith (fun a b => (a - b) ^ 2) x y).sum

/-- Projected strip coordinates of one vector: h = (x.dot(A.T) + b) / strip_window,
from SketchKNN._sketch (line 300 of sketch.py). Row i of A pairs with entry i of b. -/
def projCoords (A : List (List ℚ)) (b : List ℚ) (w : ℚ) (x : List ℚ) : List ℚ :=
  List.zipWith (fun a bi => (dotProd x a + bi) / w) A b

/-- One sketch bit: np.mod(np.floor(h), 2) from SketchKNN._sketch (line 301). -/
def bitOf (h : ℚ) : ℤ := Int.floor h % 2

/-- One sketch weight: np.minimum(np.ceil(h) - h, h - np.floor(h)) from
SketchKNN._sketch (line 303). -/
def weightOf (h : ℚ) : ℚ := min ((Int.ceil h : ℚ) - h) (h - (Int.floor h : ℚ))

/-- Sketch bits of a coordinate row. -/
def sketchBits (hs : List ℚ) : List ℤ := hs.map bitOf

/-- Sketch weights of a coordinate row. -/
def sketchWeights (hs : List ℚ) : List ℚ := hs.map weightOf

/-- Integer part of a packed value: np.floor(x) in paired_asymmetric_distance
(line 318 of sketch.py). -/
def unpackBit (p : ℚ) : ℤ := Int.floor p

/-- Fractional part of a packed value: x % 1 in paired_asymmetric_distance
(line 319 of sketch.py); numpy mod with positive divisor is x - floor(x). -/
def unpackWeight (p : ℚ) : ℚ := p - (Int.floor p : ℚ)

/-- Packing of a bit row and a weight row into one float row:
sketch_X + weight at lines 229 and 244 of sketch.py. -/
def packRow (bs : List ℤ) (ws : List ℚ) : List ℚ :=
  List.zipWith (fun (b : ℤ) (w : ℚ) => (b : ℚ) + w) bs ws

/-- paired_hamming_distance (line 314): np.count_nonzero(x - y). -/
def paired_hamming_distance (x y : List ℤ) : ℕ :=
  (List.zipWith (fun a b => if a - b ≠ 0 then (1 : ℕ) else 0) x y).sum

/-- paired_asymmetric_distance (lines 317 to 320): unpack the query row into
floor part and fractional part and return weight.dot(abs(sketch_X - y)). -/
def paired_asymmetric_distance (x y : List ℚ) : ℚ :=
  (List.zipWith (fun xi yi => unpackWeight xi * |(unpackBit xi : ℚ) - yi|) x y).sum

/-- Map a list through a fallible function, stopping at the first error, as
the query loops of kneighbors do (the first raised exception aborts the call). -/
def mapExcept {α β : Type} (f : α → Except String β) : List α → Except String (List β)
  | [] => Except.ok []
  | a :: l =>
    match f a with
    | Except.error e => Except.error e
    | Except.ok b =>
      match mapExcept f l with
      | Except.error e => Except.error e
      | Except.ok bs => Except.ok (b :: bs)

/-- Pair every element of a distance row with its column index, starting at i. -/
def withIdx : ℕ → List ℚ → List (ℚ × ℕ)
  | _, [] => []
  | i, d :: ds => (d, i) :: withIdx (i + 1) ds

/-- Insert a (distance, index) pair into a sorted list, keeping ascending
distance and breaking distance ties by ascending index. -/
def insertPair (x : ℚ × ℕ) : List (ℚ × ℕ) → List (ℚ × ℕ)
  | [] => [x]
  | y :: l =>
    if x.1 < y.1 ∨ (x.1 = y.1 ∧ x.2 ≤ y.2) then x :: y :: l else y :: insertPair x l

/-- Sort (distance, index) pairs by ascending distance, ties by ascending index:
the deterministic model of argpartition followed by argsort in
KNeighborsMixin._kneighbors_reduce_func. -/
def sortPairs : List (ℚ × ℕ) → List (ℚ × ℕ)
  | [] => []
  | x :: l => insertPair x (sortPairs l)

/-- Rank one full distance row: every (distance, column) pair in selection order. -/
def rankAll (dists : List ℚ) : List (ℚ × ℕ) := sortPairs (withIdx 0 dists)

/-- Model of _kneighbors_reduce_func returning column indices only
(return_distance=False).  np.argpartition(dist, k - 1) raises when k - 1 is
out of the column range, i.e. when fewer columns than k exist. -/
def reduceInds (dists : List ℚ) (k : ℕ) : Except String (List ℕ) :=
  if dists.length < k then Except.error "kth out of bounds"
  else Except.ok (((rankAll dists).take k).map (fun p => p.2))

/-- Model of _kneighbors_reduce_func returning (distance, column) pairs
(return_distance=True); distances stay in squared form. -/
def reduceDists (dists : List ℚ) (k : ℕ) : Except String (List (ℚ × ℕ)) :=
  if dists.length < k then Except.error "kth out of bounds"
  else Except.ok ((rankAll dists).take k)

/-- Indices of the elements satisfying p, in ascending order, counting from i:
the model of np.where on a boolean row. -/
def idxWhere {α : Type} (p : α → Prop) [DecidablePred p] : ℕ → List α → List ℕ
  | _, [] => []
  | i, a :: as => if p a then i :: idxWhere p (i + 1) as else idxWhere p (i + 1) as

/-- Group-bit positions whose query weight reaches the threshold:
np.where(q >= self.g_threshold)[0] at line 246 of sketch.py. -/
def selectR (gw : List ℚ) (thr : ℚ) : List ℕ := idxWhere (fun q => thr ≤ q) 0 gw

/-- Dataset rows whose group bits agree with the query on every position of R:
np.where((self._g_sketch_X[:, inds] == label).all(axis=1))[0] at line 248. -/
def admittedOf (gq : List ℤ) (R : List ℕ) (gX : List (List ℤ)) : List ℕ :=
  idxWhere (fun row => ∀ j ∈ R, row.getD j 0 = gq.getD j 0) 0 gX

/-- Constructor state of SketchKNN: the parameters stored by __init__,
including the derived group strip width g_strip_window =
(sketch_size / group_size) * strip_window (line 105). -/
structure SKConfig where
  n_neighbors : ℕ
  sketch_method : Option String
  sketch_size : ℕ
  strip_window : ℚ
  candidates_scale : ℕ
  group_size : ℕ
  group_threshold : ℚ
  g_strip_window : ℚ
deriving DecidableEq

/-- Whether __init__ accepts a sketch_method value (lines 110 to 127). -/
def validMethod (m? : Option String) : Bool :=
  match m? with
  | none => true
  | some m =>
    if m = "symmetric" then true
    else if m = "asymmetric" then true
    else if m = "g_asymmetric" then true
    else if m = "PCA" then true
    else false

/-- SketchKNN.__init__ (lines 96 to 127): computes g_strip_window, which
divides by group_size (a Python ZeroDivisionError when it is zero), then
checks only that sketch_method is one of the known values; no numeric
range validation is performed. -/
def skInit (n_neighbors : ℕ) (sketch_method : Option String) (sketch_size : ℕ)
    (strip_window : ℚ) (candidates_scale : ℕ) (group_size : ℕ)
    (group_threshold : ℚ) : Except String SKConfig :=
  if group_size = 0 then Except.error "ZeroDivisionError"
  else if validMethod sketch_method then
    Except.ok ⟨n_neighbors, sketch_method, sketch_size, strip_window, candidates_scale,
      group_size, group_threshold,
      ((sketch_size : ℚ) / (group_size : ℚ)) * strip_window⟩
  else Except.error "sketch_method has not been implemented"

/-- A fitted index: the stored configuration, the dataset, the fine
projection basis (A, b), the group basis (g_A, g_b) and the external PCA
transform treated as an opaque collaborator. -/
structure Fitted where
  cfg : SKConfig
  fitX : List (List ℚ)
  A : List (List ℚ)
  b : List ℚ
  gA : List (List ℚ)
  gb : List ℚ
  pcaT : List ℚ → List ℚ

/-- The stored dataset sketch self._sketch_X: fine bits of every fit row. -/
def sketchXOf (F : Fitted) : List (List ℤ) :=
  F.fitX.map (fun x => sketchBits (projCoords F.A F.b F.cfg.strip_window x))

/-- The stored dataset group sketch self._g_sketch_X: group bits of every fit row. -/
def gSketchXOf (F : Fitted) : List (List ℤ) :=
  F.fitX.map (fun x => sketchBits (projCoords F.gA F.gb F.cfg.g_strip_window x))

/-- The stored PCA embedding self._pca_X of the dataset. -/
def pcaXOf (F : Fitted) : List (List ℚ) := F.fitX.map F.pcaT

/-- The packed query row sketch_X + weight built at lines 228 to 229 and
243 to 244 of sketch.py. -/
def querySketchPacked (F : Fitted) (x : List ℚ) : List ℚ :=
  packRow (sketchBits (projCoords F.A F.b F.cfg.strip_window x))
    (sketchWeights (projCoords F.A F.b F.cfg.strip_window x))

/-- Cast a bit row to rationals, as the stored numpy sketch rows are floats. -/
def intsToQ (l : List ℤ) : List ℚ := l.map (fun (z : ℤ) => (z : ℚ))

/-- Query-time method resolution (lines 196 to 197): a non-None
construction-time sketch_method silently replaces the query argument. -/
def resolveMethod (cfgm qm : Option String) : Option String :=
  if cfgm.isSome then cfgm else qm

/-- n_candidates as computed at line 217: self.n_neighbors (the
construction-time value) times the effective candidates_scale. -/
def nCandidatesOf (cfg : SKConfig) (cs? : Option ℕ) : ℕ :=
  cfg.n_neighbors * cs?.getD cfg.candidates_scale

/-- Strategy A, symmetric (lines 221 to 225): hamming distance between the
query bits and every stored dataset bit row. -/
def symCandidates (F : Fitted) (X : List (List ℚ)) (nCand : ℕ) :
    Except String (List (List ℕ)) :=
  mapExcept (fun x =>
    reduceInds ((sketchXOf F).map (fun y =>
      (paired_hamming_distance
        (sketchBits (projCoords F.A F.b F.cfg.strip_window x)) y : ℚ))) nCand) X

/-- Strategy B, asymmetric (lines 226 to 233): packed query row against every
stored dataset bit row under paired_asymmetric_distance. -/
def asymCandidates (F : Fitted) (X : List (List ℚ)) (nCand : ℕ) :
    Except String (List (List ℕ)) :=
  mapExcept (fun x =>
    reduceInds ((sketchXOf F).map (fun y =>
      paired_asymmetric_distance (querySketchPacked F x) (intsToQ y))) nCand) X

/-- Strategy D, PCA (lines 234 to 240): rank the PCA embeddings by the true
(squared euclidean) metric. -/
def pcaCandidates (F : Fitted) (X : List (List ℚ)) (nCand : ℕ) :
    Except String (List (List ℕ)) :=
  mapExcept (fun x =>
    reduceInds ((pcaXOf F).map (fun y => sqeuclidean (F.pcaT x) y)) nCand) X

/-- Strategy C, grouped asymmetric (lines 241 to 258): group-bit prefilter,
then asymmetric ranking of the admitted rows, positions mapped back to
dataset row numbers. -/
def gasymCandidates (F : Fitted) (X : List (List ℚ)) (nCand : ℕ) :
    Except String (List (List ℕ)) :=
  mapExcept (fun x =>
    let gHs := projCoords F.gA F.gb F.cfg.g_strip_window x
    let adm := admittedOf (sketchBits gHs)
      (selectR (sketchWeights gHs) F.cfg.group_threshold) (gSketchXOf F)
    match reduceInds (adm.map (fun d =>
        paired_asymmetric_distance (querySketchPacked F x)
          (intsToQ ((sketchXOf F).getD d [])))) nCand with
    | Except.error e => Except.error e
    | Except.ok inds => Except.ok (inds.map (fun j => adm.getD j 0))) X

/-- The candidate selection stage of kneighbors (lines 214 to 261), one of
the four strategies, producing per query the candidate dataset indices. -/
def findCandidates (F : Fitted) (X : List (List ℚ)) (m : String) (nCand : ℕ) :
    Except String (List (List ℕ)) :=
  if m = "symmetric" then symCandidates F X nCand
  else if m = "asymmetric" then asymCandidates F X nCand
  else if m = "PCA" then pcaCandidates F X nCand
  else if m = "g_asymmetric" then gasymCandidates F X nCand
  else Except.error "sketch_method has not been implemented"

/-- The unfiltered path of kneighbors (lines 264 to 274): rank the whole
dataset by true (squared euclidean) distance. -/
def bruteNeighbors (F : Fitted) (X : List (List ℚ)) (k : ℕ) :
    Except String (List (List (ℚ × ℕ))) :=
  mapExcept (fun x => reduceDists (F.fitX.map (fun y => sqeuclidean x y)) k) X

/-- Exact reranking of one query over its candidate list (lines 277 to 288):
true distances to the candidate rows, top k, positions mapped back to
original dataset indices through candidates[i]. -/
def rerank (F : Fitted) (k : ℕ) (x : List ℚ) (cand : List ℕ) :
    Except String (List (ℚ × ℕ)) :=
  match reduceDists ((cand.map (fun i => F.fitX.getD i [])).map
      (fun y => sqeuclidean x y)) k with
  | Except.error e => Except.error e
  | Except.ok prs => Except.ok (prs.map (fun dj => (dj.1, cand.getD dj.2 0)))

/-- SketchKNN.kneighbors (lines 159 to 294): resolve the effective
n_neighbors and sketch_method, find candidates when a filter strategy is
active, and rerank by the true metric.  Results are (squared distance,
dataset index) pairs per query row. -/
def kneighbors (F : Fitted) (X : List (List ℚ)) (nn? : Option ℕ)
    (qm : Option String) (cs? : Option ℕ) :
    Except String (List (List (ℚ × ℕ))) :=
  let k := nn?.getD F.cfg.n_neighbors
  match resolveMethod F.cfg.sketch_method qm with
  | none => bruteNeighbors F X k
  | some ms =>
    match findCandidates F X ms (nCandidatesOf F.cfg cs?) with
    | Except.error e => Except.error e
    | Except.ok cands => mapExcept (fun p => rerank F k p.1 p.2) (X.zip cands)

/-- Reference brute-force top-K, written from the spec text: rank every
dataset point by the true metric distance to the query (squared euclidean;
the monotone square root is applied only at output time), break ties by
ascending dataset index, keep the K best. -/
def specBruteTopK (dataset : List (List ℚ)) (q : List ℚ) (k : ℕ) : List (ℚ × ℕ) :=
  (sortPairs (withIdx 0 (dataset.map (fun y => sqeuclidean q y)))).take k

/-- The global numpy random state: an unbounded stream of unit draws and the
offset of the next unconsumed draw. -/
structure World where
  globalStream : ℕ → ℚ
  globalOffset : ℕ

/-- A numpy RandomState handle: its draw stream and the next draw position. -/
structure RngHandle where
  draws : ℕ → ℚ
  start : ℕ

/-- sklearn check_random_state: an integer seed yields a fresh
RandomState(seed) whose stream starts at position zero and depends only on
the seed; None yields the shared global state. -/
def check_random_state (stream : ℤ → ℕ → ℚ) (w : World) : Option ℤ → RngHandle
  | some seed => ⟨stream seed, 0⟩
  | none => ⟨w.globalStream, w.globalOffset⟩

/-- Draw an r x c matrix of unit normal deviates, consuming r*c draws. -/
def drawMat (h : RngHandle) (r c : ℕ) : List (List ℚ) × RngHandle :=
  ((List.range r).map (fun i => (List.range c).map (fun j => h.draws (h.start + i * c + j))),
   ⟨h.draws, h.start + r * c⟩)

/-- Draw n uniform deviates on the interval from 0 to hi, consuming n draws. -/
def drawUnif (h : RngHandle) (hi : ℚ) (n : ℕ) : List ℚ × RngHandle :=
  ((List.range n).map (fun i => hi * h.draws (h.start + i)), ⟨h.draws, h.start + n⟩)

/-- The two projection bases generated by SketchKNN._partition. -/
structure Bases where
  A : List (List ℚ)
  b : List ℚ
  gA : List (List ℚ)
  gb : List ℚ

/-- SketchKNN._partition (lines 151 to 157): obtain a random state via
check_random_state(self.random_state), then draw A (normal, scaled by
1/sqrt(D), the abstract invSqrtD), b (uniform on strip_window), g_A and g_b,
in that order.  With an integer seed the fresh RandomState is discarded and
the global state is untouched; with None the global offset advances. -/
def partitionModel (stream : ℤ → ℕ → ℚ) (w : World) (seed : Option ℤ) (invSqrtD : ℚ)
    (S D G : ℕ) (sw gsw : ℚ) : Bases × World :=
  let h0 := check_random_state stream w seed
  let p1 := drawMat h0 S D
  let p2 := drawUnif p1.2 sw S
  let p3 := drawMat p2.2 G D
  let p4 := drawUnif p3.2 gsw G
  (⟨p1.1.map (fun row => row.map (fun v => v * invSqrtD)), p2.1,
    p3.1.map (fun row => row.map (fun v => v * invSqrtD)), p4.1⟩,
   match seed with
   | some _ => w
   | none => ⟨w.globalStream, p4.2.start⟩)

/-- Full sketch encoding of a dataset under a pair of bases: fine bits, fine
weights, group bits and group weights of every row, as _sketch computes with
both flags set. -/
def encodeAll (B : Bases) (sw gsw : ℚ) (X : List (List ℚ)) :
    List (List ℤ × List ℚ × List ℤ × List ℚ) :=
  X.map (fun x =>
    (sketchBits (projCoords B.A B.b sw x), sketchWeights (projCoords B.A B.b sw x),
     sketchBits (projCoords B.gA B.gb gsw x), sketchWeights (projCoords B.gA B.gb gsw x)))

/-- Concrete fitted index for the docstring scenario of claim C1: three data
points, n_neighbors 1, no sketch method; the sketch configuration fields and
bases are arbitrary parameters. -/
def Fdemo1 (S cscale gsize : ℕ) (w thr gw : ℚ) (A gA : List (List ℚ))
    (b gb : List ℚ) (pca : List ℚ → List ℚ) : Fitted :=
  ⟨⟨1, none, S, w, cscale, gsize, thr, gw⟩,
   [[0, 0, 0], [0, 1 / 2, 0], [1, 1, 1 / 2]], A, b, gA, gb, pca⟩

/-- Concrete fitted index for claim C5: constructed with
sketch_method = symmetric. -/
def F5demo : Fitted :=
  ⟨⟨1, some "symmetric", 1, 1, 1, 1, 1 / 10, 1⟩,
   [[1 / 2], [3 / 2]], [[1]], [0], [[1]], [0], fun _ => []⟩

/-- Concrete fitted index for claim C6: constructed with n_neighbors = 5 and
candidates_scale = 1 over a two-point dataset, sketch_method unset. -/
def F6demo : Fitted :=
  ⟨⟨5, none, 1, 1, 1, 1, 1 / 10, 1⟩,
   [[0], [1]], [[1]], [0], [[1]], [0], fun _ => []⟩

/-- Concrete fitted index for claim C7: grouped asymmetric method,
n_neighbors = 2, candidates_scale = 1, a two-point dataset whose group bits
differ, so a confident query admits only one point while n_candidates = 2. -/
def F7demo : Fitted :=
  ⟨⟨2, some "g_asymmetric", 1, 1, 1, 1, 1 / 10, 1⟩,
   [[1 / 2], [3 / 2]], [[1]], [0], [[1]], [0], fun _ => []⟩

/-- Ceil through floor, for evaluating concrete instances (the norm_num
extension of this Mathlib version evaluates floors but not ceils). -/
theorem ceil_via_floor (a : ℚ) : (Int.ceil a : ℤ) = -Int.floor (-a) := by
  simp [Int.floor_neg]

/-- Branch selection of findCandidates at the symmetric method string. -/
theorem findCandidates_sym (F : Fitted) (X : List (List ℚ)) (k : ℕ) :
    findCandidates F X "symmetric" k = symCandidates F X k := by
  simp +decide [findCandidates]

/-- Branch selection of findCandidates at the asymmetric method string. -/
theorem findCandidates_asym (F : Fitted) (X : List (List ℚ)) (k : ℕ) :
    findCandidates F X "asymmetric" k = asymCandidates F X k := by
  simp +decide [findCandidates]

/-- Branch selection of findCandidates at the PCA method string. -/
theorem findCandidates_pca (F : Fitted) (X : List (List ℚ)) (k : ℕ) :
    findCandidates F X "PCA" k = pcaCandidates F X k := by
  simp +decide [findCandidates]

/-- Branch selection of findCandidates at the grouped asymmetric method string. -/
theorem findCandidates_gasym (F : Fitted) (X : List (List ℚ)) (k : ℕ) :
    findCandidates F X "g_asymmetric" k = gasymCandidates F X k := by
  simp +decide [findCandidates]

/-- mapExcept returns ok of the pointwise results when every element succeeds. -/
theorem mapExcept_ok_of {α β : Type} (f : α → Except String β) (g : α → β) :
    ∀ l : List α, (∀ a ∈ l, f a = Except.ok (g a)) →
      mapExcept f l = Except.ok (l.map g) := by
  intro l
  induction l with
  | nil => intro _; rfl
  | cons a as ih =>
    intro h
    have ha := h a (List.mem_cons_self a as)
    have has : mapExcept f as = Except.ok (as.map g) :=
      ih (fun b hb => h b (List.mem_cons_of_mem a hb))
    simp [mapExcept, ha, has]

/-- Every element of a successful mapExcept result comes from a successful
application to some input element. -/
theorem mapExcept_ok_mem {α β : Type} (f : α → Except String β) :
    ∀ (l : List α) (bs : List β), mapExcept f l = Except.ok bs →
      ∀ b ∈ bs, ∃ a ∈ l, f a = Except.ok b := by
  intro l
  induction l with
  | nil =>
    intro bs h b hb
    simp only [mapExcept] at h
    injection h with h'
    subst h'
    simp at hb
  | cons a as ih =>
    intro bs h b hb
    cases hfa : f a with
    | error e =>
      simp only [mapExcept, hfa] at h
      exact Except.noConfusion h
    | ok b0 =>
      cases hrest : mapExcept f as with
      | error e =>
        simp only [mapExcept, hfa, hrest] at h
        exact Except.noConfusion h
      | ok bs0 =>
        simp only [mapExcept, hfa, hrest] at h
        injection h with h'
        subst h'
        rcases List.mem_cons.mp hb with rfl | hb'
        · exact ⟨a, List.mem_cons_self a as, hfa⟩
        · obtain ⟨a', ha', hfa'⟩ := ih bs0 hrest b hb'
          exact ⟨a', List.mem_cons_of_mem a ha', hfa'⟩

/-- Inserting one pair grows the sorted list by one. -/
theorem insertPair_length (x : ℚ × ℕ) :
    ∀ l : List (ℚ × ℕ), (insertPair x l).length = l.length + 1 := by
  intro l
  induction l with
  | nil => rfl
  | cons y ys ih =>
    by_cases hc : x.1 < y.1 ∨ (x.1 = y.1 ∧ x.2 ≤ y.2)
    · simp [insertPair, hc]
    · simp [insertPair, hc, ih]

/-- Sorting preserves length. -/
theorem sortPairs_length : ∀ l : List (ℚ × ℕ), (sortPairs l).length = l.length := by
  intro l
  induction l with
  | nil => rfl
  | cons y ys ih => simp [sortPairs, insertPair_length, ih]

/-- Index pairing preserves length. -/
theorem withIdx_length : ∀ (i : ℕ) (l : List ℚ), (withIdx i l).length = l.length := by
  intro i l
  induction l generalizing i with
  | nil => rfl
  | cons d ds ih => simp [withIdx, ih]

/-- Ranking a distance row yields one pair per column. -/
theorem rankAll_length (d : List ℚ) : (rankAll d).length = d.length := by
  simp [rankAll, sortPairs_length, withIdx_length]

/-- A successful reduce returns exactly k indices. -/
theorem reduceInds_ok_length (d : List ℚ) (k : ℕ) (c : List ℕ)
    (h : reduceInds d k = Except.ok c) : c.length = k := by
  unfold reduceInds at h
  split at h
  · exact absurd h (by simp)
  · next hnlt =>
    injection h with h'
    subst h'
    simp [List.length_take, rankAll_length]
    omega

/-- The reduce fails when asked for more columns than exist, as
np.argpartition does. -/
theorem reduceInds_err (d : List ℚ) (k : ℕ) (h : d.length < k) :
    reduceInds d k = Except.error "kth out of bounds" := by
  simp [reduceInds, h]

/-- Membership in idxWhere with arbitrary starting offset. -/
theorem idxWhere_mem {α : Type} (p : α → Prop) [DecidablePred p] (dflt : α) :
    ∀ (l : List α) (k d : ℕ),
      d ∈ idxWhere p k l ↔ k ≤ d ∧ d - k < l.length ∧ p (l.getD (d - k) dflt) := by
  intro l
  induction l with
  | nil => intro k d; simp [idxWhere]
  | cons a as ih =>
    intro k d
    by_cases hp : p a
    · simp only [idxWhere, if_pos hp, List.mem_cons]
      constructor
      · rintro (rfl | hd)
        · exact ⟨le_refl d, by simp, by simpa using hp⟩
        · obtain ⟨h1, h2, h3⟩ := (ih (k + 1) d).mp hd
          refine ⟨by omega, by simp; omega, ?_⟩
          have hdk : d - k = (d - (k + 1)) + 1 := by omega
          rw [hdk, List.getD_cons_succ]
          exact h3
      · rintro ⟨h1, h2, h3⟩
        by_cases hdk : d = k
        · exact Or.inl hdk
        · refine Or.inr ((ih (k + 1) d).mpr ⟨by omega, ?_, ?_⟩)
          · simp at h2; omega
          · have hdk2 : d - k = (d - (k + 1)) + 1 := by omega
            rw [hdk2, List.getD_cons_succ] at h3
            exact h3
    · simp only [idxWhere, if_neg hp]
      rw [ih (k + 1) d]
      constructor
      · rintro ⟨h1, h2, h3⟩
        refine ⟨by omega, by simp; omega, ?_⟩
        have hdk : d - k = (d - (k + 1)) + 1 := by omega
        rw [hdk, List.getD_cons_succ]
        exact h3
      · rintro ⟨h1, h2, h3⟩
        by_cases hdk : d = k
        · subst hdk
          simp at h3
          exact absurd h3 hp
        · refine ⟨by omega, ?_, ?_⟩
          · simp at h2; omega
          · have hdk2 : d - k = (d - (k + 1)) + 1 := by omega
            rw [hdk2, List.getD_cons_succ] at h3
            exact h3

/-- idxWhere returns at most one index per element. -/
theorem idxWhere_length_le {α : Type} (p : α → Prop) [DecidablePred p] :
    ∀ (l : List α) (k : ℕ), (idxWhere p k l).length ≤ l.length := by
  intro l
  induction l with
  | nil => intro k; simp [idxWhere]
  | cons a as ih =>
    intro k
    by_cases hp : p a
    · simp only [idxWhere, if_pos hp, List.length_cons]
      exact Nat.succ_le_succ (ih (k + 1))
    · simp only [idxWhere, if_neg hp, List.length_cons]
      exact Nat.le_succ_of_le (ih (k + 1))

/-- When the predicate holds everywhere, idxWhere returns every index. -/
theorem idxWhere_all {α : Type} (p : α → Prop) [DecidablePred p] :
    ∀ (l : List α) (k : ℕ), (∀ a ∈ l, p a) →
      idxWhere p k l = List.range' k l.length := by
  intro l
  induction l with
  | nil => intro k _; simp [idxWhere]
  | cons a as ih =>
    intro k h
    have hp : p a := h a (List.mem_cons_self a as)
    simp only [idxWhere, if_pos hp, List.length_cons, List.range'_succ]
    rw [ih (k + 1) (fun x hx => h x (List.mem_cons_of_mem a hx))]

/-- Successful symmetric candidate rows have exactly nCand entries. -/
theorem symCandidates_ok_length (F : Fitted) (X : List (List ℚ)) (k : ℕ)
    (css : List (List ℕ)) (h : symCandidates F X k = Except.ok css) :
    ∀ c ∈ css, c.length = k := by
  intro c hc
  unfold symCandidates at h
  obtain ⟨x, hx, hfx⟩ := mapExcept_ok_mem _ _ _ h c hc
  exact reduceInds_ok_length _ _ _ hfx

/-- Successful asymmetric candidate rows have exactly nCand entries. -/
theorem asymCandidates_ok_length (F : Fitted) (X : List (List ℚ)) (k : ℕ)
    (css : List (List ℕ)) (h : asymCandidates F X k = Except.ok css) :
    ∀ c ∈ css, c.length = k := by
  intro c hc
  unfold asymCandidates at h
  obtain ⟨x, hx, hfx⟩ := mapExcept_ok_mem _ _ _ h c hc
  exact reduceInds_ok_length _ _ _ hfx

/-- Successful PCA candidate rows have exactly nCand entries. -/
theorem pcaCandidates_ok_length (F : Fitted) (X : List (List ℚ)) (k : ℕ)
    (css : List (List ℕ)) (h : pcaCandidates F X k = Except.ok css) :
    ∀ c ∈ css, c.length = k := by
  intro c hc
  unfold pcaCandidates at h
  obtain ⟨x, hx, hfx⟩ := mapExcept_ok_mem _ _ _ h c hc
  exact reduceInds_ok_length _ _ _ hfx

/-- Successful grouped asymmetric candidate rows have exactly nCand entries. -/
theorem gasymCandidates_ok_length (F : Fitted) (X : List (List ℚ)) (k : ℕ)
    (css : List (List ℕ)) (h : gasymCandidates F X k = Except.ok css) :
    ∀ c ∈ css, c.length = k := by
  intro c hc
  unfold gasymCandidates at h
  obtain ⟨x, hx, hfx⟩ := mapExcept_ok_mem _ _ _ h c hc
  dsimp only at hfx
  split at hfx
  · exact Except.noConfusion hfx
  · next inds heq =>
    injection hfx with h'
    subst h'
    rw [List.length_map]
    exact reduceInds_ok_length _ _ _ heq

/-- Every successful candidate row of any strategy has exactly nCand entries. -/
theorem findCandidates_ok_length (F : Fitted) (X : List (List ℚ)) (m : String)
    (k : ℕ) (css : List (List ℕ)) (h : findCandidates F X m k = Except.ok css) :
    ∀ c ∈ css, c.length = k := by
  unfold findCandidates at h
  split_ifs at h
  · exact symCandidates_ok_length F X k css h
  · exact asymCandidates_ok_length F X k css h
  · exact pcaCandidates_ok_length F X k css h
  · exact gasymCandidates_ok_length F X k css h

/-- The floor of a bit plus a subunit weight recovers the bit. -/
theorem floor_bit_add (bq : ℤ) (w : ℚ) (h0 : 0 ≤ w) (h1 : w < 1) :
    Int.floor ((bq : ℚ) + w) = bq := by
  rw [Int.floor_int_add]
  have hw : ⌊w⌋ = 0 := Int.floor_eq_zero_iff.mpr (Set.mem_Ico.mpr ⟨h0, h1⟩)
  omega

/-- Claim C1: for every fitted index with sketch_method unset at both
construction and query time, kneighbors returns exactly the reference
brute-force top-n_neighbors by the true metric (squared euclidean inside the
pipeline; the code takes the monotone square root at output).  In particular,
for the dataset [[0,0,0],[0,0.5,0],[1,1,0.5]] and query [[1,1,1]] with
n_neighbors 1, the result is index 2 at squared distance 1/4, i.e. plain
euclidean distance 1/2, for every sketch configuration and basis. -/
theorem C1_nofilter_bruteforce :
    (∀ (F : Fitted) (X : List (List ℚ)) (k : ℕ) (cs? : Option ℕ),
        F.cfg.sketch_method = none → k ≤ F.fitX.length →
        kneighbors F X (some k) none cs? =
          Except.ok (X.map (fun q => specBruteTopK F.fitX q k)))
    ∧ (∀ (S cscale gsize : ℕ) (w thr gw : ℚ) (A gA : List (List ℚ))
        (b gb : List ℚ) (pca : List ℚ → List ℚ),
        kneighbors (Fdemo1 S cscale gsize w thr gw A gA b gb pca)
            [[1, 1, 1]] none none none = Except.ok [[(1 / 4, 2)]]
          ∧ ((1 : ℚ) / 2) ^ 2 = 1 / 4) := by
  constructor
  · intro F X k cs? hm hk
    unfold kneighbors
    rw [hm]
    simp only [resolveMethod, Option.isSome_none, Bool.false_eq_true, if_false,
      Option.getD_some]
    unfold bruteNeighbors
    apply mapExcept_ok_of
    intro q hq
    unfold reduceDists
    rw [if_neg (by rw [List.length_map]; omega)]
    rfl
  · intro S cscale gsize w thr gw A gA b gb pca
    constructor
    · rw [kneighbors]
      norm_num [Fdemo1, resolveMethod, bruteNeighbors, mapExcept, reduceDists, rankAll,
        withIdx, sortPairs, insertPair, sqeuclidean]
    · norm_num

/-- Witness for C1: the no-filter path on the docstring dataset with
n_neighbors 1 equals the reference brute-force result. -/
theorem C1_witness :
    kneighbors (Fdemo1 1 1 1 1 1 1 [[1]] [[1]] [0] [0] (fun _ => []))
        [[1, 1, 1]] (some 1) none none =
      Except.ok ([[1, 1, 1]].map (fun q =>
        specBruteTopK (Fdemo1 1 1 1 1 1 1 [[1]] [[1]] [0] [0] (fun _ => [])).fitX q 1)) :=
  C1_nofilter_bruteforce.1 (Fdemo1 1 1 1 1 1 1 [[1]] [[1]] [0] [0] (fun _ => []))
    [[1, 1, 1]] 1 none rfl (by norm_num [Fdemo1])

/-- Claim C2: for every input vector and every basis row, the encoder of
SketchKNN._sketch produces bit = floor(h) mod 2 equal to 0 or 1, and
weight = min(ceil(h) - h, h - floor(h)) between 0 and 1/2, where h ranges
over the projected coordinates (x.dot(A.T) + b) / strip_width; when h is an
exact integer (a coordinate on a strip boundary) the weight is 0 and no
error or division by zero occurs. -/
theorem C2_encoder_bit_weight (A : List (List ℚ)) (b : List ℚ) (w : ℚ) (x : List ℚ)
    (h : ℚ) (hmem : h ∈ projCoords A b w x) :
    (bitOf h = 0 ∨ bitOf h = 1) ∧ 0 ≤ weightOf h ∧ weightOf h ≤ 1 / 2 ∧
      (∀ n : ℤ, h = (n : ℚ) → weightOf h = 0) := by
  refine ⟨?_, ?_, ?_, ?_⟩
  · unfold bitOf
    omega
  · unfold weightOf
    refine le_min ?_ ?_
    · have := Int.le_ceil h
      linarith
    · have := Int.floor_le h
      linarith
  · have hc : ((Int.ceil h : ℚ)) ≤ (Int.floor h : ℚ) + 1 := by
      exact_mod_cast Int.ceil_le_floor_add_one h
    rcases le_total ((Int.ceil h : ℚ) - h) (h - (Int.floor h : ℚ)) with hle | hle
    · rw [weightOf, min_eq_left hle]
      linarith
    · rw [weightOf, min_eq_right hle]
      linarith
  · intro n hn
    subst hn
    simp [weightOf]

/-- Witness for C2 at the concrete coordinate h = 3/2, reached from the
one-row basis A = [[1]], b = [0], strip_window = 1 and the input x = [3/2]. -/
theorem C2_witness :
    bitOf ((3 : ℚ) / 2) = 0 ∨ bitOf ((3 : ℚ) / 2) = 1 :=
  (C2_encoder_bit_weight [[1]] [0] 1 [3 / 2] (3 / 2)
    (by norm_num [projCoords, dotProd])).1

/-- Counterexample to claim C3: the packed query row [0] (bit 0 with weight
0, a coordinate exactly on a strip boundary) against the dataset bit row [1]
gives paired_asymmetric_distance 0 although the bits disagree, so the
distance can vanish without all bits matching. -/
theorem C3_counterexample :
    paired_asymmetric_distance [(0 : ℚ)] [(1 : ℚ)] = 0 ∧ unpackBit (0 : ℚ) ≠ (1 : ℤ) := by
  constructor
  · norm_num [paired_asymmetric_distance, unpackBit, unpackWeight, -Int.self_sub_floor]
  · norm_num [unpackBit]

/-- Claim C3 as amended: for every packed query row (bits in 0 or 1, weights
between 0 and 1/2) and dataset bit row of the same length, the asymmetric
sketch-distance equals the sum of weight times bit difference, is always
nonnegative, and vanishes exactly when the bits match at every position
carrying a positive weight (so it vanishes whenever all bits match, and,
when every weight is positive, only then). -/
theorem C3_asymmetric_distance :
    ∀ (bs ys : List ℤ) (ws : List ℚ),
      bs.length = ws.length → ws.length = ys.length →
      (∀ b0 ∈ bs, b0 = 0 ∨ b0 = 1) → (∀ y0 ∈ ys, y0 = 0 ∨ y0 = 1) →
      (∀ w0 ∈ ws, 0 ≤ w0 ∧ w0 ≤ 1 / 2) →
      paired_asymmetric_distance (packRow bs ws) (intsToQ ys) =
          ((ws.zip (bs.zip ys)).map (fun p => p.1 * |(p.2.1 : ℚ) - (p.2.2 : ℚ)|)).sum
        ∧ 0 ≤ paired_asymmetric_distance (packRow bs ws) (intsToQ ys)
        ∧ (paired_asymmetric_distance (packRow bs ws) (intsToQ ys) = 0 ↔
            ∀ p ∈ ws.zip (bs.zip ys), 0 < p.1 → p.2.1 = p.2.2) := by
  intro bs
  induction bs with
  | nil =>
    intro ys ws h1 h2 _ _ _
    have hws : ws = [] := List.length_eq_zero.mp (by simpa using h1.symm)
    subst hws
    have hys : ys = [] := List.length_eq_zero.mp (by simpa using h2.symm)
    subst hys
    refine ⟨by simp [paired_asymmetric_distance, packRow, intsToQ], ?_, ?_⟩
    · simp [paired_asymmetric_distance, packRow, intsToQ]
    · simp [paired_asymmetric_distance, packRow, intsToQ]
  | cons b bs ih =>
    intro ys ws h1 h2 hb hy hw
    cases ws with
    | nil => simp at h1
    | cons w ws =>
      cases ys with
      | nil => simp at h2
      | cons y ys =>
        obtain ⟨hw0, hw2⟩ := hw w (List.mem_cons_self w ws)
        have hfl : Int.floor ((b : ℚ) + w) = b := floor_bit_add b w hw0 (by linarith)
        have hwt : unpackWeight ((b : ℚ) + w) = w := by
          rw [unpackWeight, hfl]; ring
        have hbt : unpackBit ((b : ℚ) + w) = b := hfl
        obtain ⟨ih1, ih2, ih3⟩ := ih ys ws (by simpa using h1) (by simpa using h2)
          (fun z hz => hb z (List.mem_cons_of_mem b hz))
          (fun z hz => hy z (List.mem_cons_of_mem y hz))
          (fun z hz => hw z (List.mem_cons_of_mem w hz))
        have hc : paired_asymmetric_distance (packRow (b :: bs) (w :: ws)) (intsToQ (y :: ys)) =
            w * |(b : ℚ) - (y : ℚ)| + paired_asymmetric_distance (packRow bs ws) (intsToQ ys) := by
          simp only [packRow, intsToQ, List.zipWith_cons_cons, List.map_cons,
            paired_asymmetric_distance, List.sum_cons]
          rw [hwt, hbt]
        refine ⟨?_, ?_, ?_⟩
        · rw [hc, ih1]
          simp
        · rw [hc]
          have hnn : 0 ≤ w * |(b : ℚ) - (y : ℚ)| := mul_nonneg hw0 (abs_nonneg _)
          linarith
        · rw [hc]
          rw [add_eq_zero_iff_of_nonneg (mul_nonneg hw0 (abs_nonneg _)) ih2]
          rw [ih3]
          simp only [List.zip_cons_cons, List.forall_mem_cons]
          constructor
          · rintro ⟨hz1, hz2⟩
            refine ⟨?_, hz2⟩
            intro hwpos
            rcases mul_eq_zero.mp hz1 with hz | hz
            · exact absurd hz (ne_of_gt hwpos)
            · have hcast : (b : ℚ) = (y : ℚ) := by
                have := abs_eq_zero.mp hz
                linarith
              exact_mod_cast hcast
          · rintro ⟨hz1, hz2⟩
            refine ⟨?_, hz2⟩
            by_cases hwp : 0 < w
            · rw [hz1 hwp, sub_self, abs_zero, mul_zero]
            · rw [le_antisymm (not_lt.mp hwp) hw0, zero_mul]

/-- Witness for the amended C3 at a concrete packed row: bits [0,1] with
weights [1/4,1/4] against dataset bits [0,0]. -/
theorem C3_witness :
    0 ≤ paired_asymmetric_distance (packRow [0, 1] [1 / 4, 1 / 4]) (intsToQ [0, 0]) :=
  (C3_asymmetric_distance [0, 1] [0, 0] [1 / 4, 1 / 4] rfl rfl
    (by norm_num) (by norm_num) (by norm_num)).2.1

/-- Claim C4: under the grouped asymmetric strategy, with R the set of
group-bit positions whose query weight reaches group_threshold, a dataset
row is admitted to phase 2 exactly when its group bits equal the query group
bits at every position of R (positions outside R unconstrained); when R is
empty the whole dataset is admitted, and the admitted set never exceeds the
dataset size. -/
theorem C4_group_prefilter (gq : List ℤ) (gw : List ℚ) (thr : ℚ) (gX : List (List ℤ)) :
    (∀ j : ℕ, j ∈ selectR gw thr ↔ j < gw.length ∧ thr ≤ gw.getD j 0)
    ∧ (∀ d : ℕ, d ∈ admittedOf gq (selectR gw thr) gX ↔
        d < gX.length ∧ ∀ j ∈ selectR gw thr, (gX.getD d []).getD j 0 = gq.getD j 0)
    ∧ (selectR gw thr = [] → admittedOf gq (selectR gw thr) gX = List.range gX.length)
    ∧ (admittedOf gq (selectR gw thr) gX).length ≤ gX.length := by
  refine ⟨?_, ?_, ?_, ?_⟩
  · intro j
    rw [selectR, idxWhere_mem _ 0]
    simp
  · intro d
    rw [admittedOf, idxWhere_mem _ []]
    simp
  · intro hR
    rw [admittedOf, hR]
    rw [idxWhere_all _ gX 0 (by simp)]
    rw [List.range_eq_range']
  · exact idxWhere_length_le _ gX 0

/-- Witness for C4: with a one-bit group basis, threshold above the query
weight empties R and the whole two-row dataset is admitted. -/
theorem C4_witness :
    admittedOf [0] (selectR [1 / 2] 1) [[0], [1]] = List.range 2 :=
  (C4_group_prefilter [0] [1 / 2] 1 [[0], [1]]).2.2.1 (by
    norm_num [selectR, idxWhere])

/-- Counterexample to claim C5: the index F5demo is constructed with
sketch_method symmetric, yet kneighbors called with the different method
asymmetric returns a normal result (the override is silently replaced by
the construction-time method at lines 196 to 197) instead of raising a
configuration error as the claim demands. -/
theorem C5_counterexample :
    kneighbors F5demo [[1 / 2]] none (some "asymmetric") none =
      Except.ok [[((0 : ℚ), (0 : ℕ))]] := by
  rw [kneighbors]
  norm_num [F5demo, resolveMethod, nCandidatesOf, findCandidates_sym, symCandidates,
    mapExcept, reduceInds, reduceDists, rankAll, withIdx, sortPairs, insertPair,
    sqeuclidean, sketchXOf, sketchBits, bitOf, projCoords, dotProd,
    paired_hamming_distance, rerank]

/-- Claim C5 as amended: when construction fixed a sketch_method, a
query-time sketch_method argument is silently ignored and the call behaves
exactly as if the construction-time method had been passed; no error is
raised. -/
theorem C5_override_ignored (F : Fitted) (X : List (List ℚ)) (nn? : Option ℕ)
    (qm : Option String) (cs? : Option ℕ) (h : F.cfg.sketch_method.isSome = true) :
    kneighbors F X nn? qm cs? = kneighbors F X nn? F.cfg.sketch_method cs? := by
  unfold kneighbors
  simp only [resolveMethod, h, if_true]

/-- Witness for the amended C5: overriding with asymmetric on a
symmetric-built index behaves as the symmetric method. -/
theorem C5_witness :
    kneighbors F5demo [[1 / 2]] none (some "asymmetric") none =
      kneighbors F5demo [[1 / 2]] none (some "symmetric") none :=
  C5_override_ignored F5demo [[1 / 2]] none (some "asymmetric") none rfl

/-- Counterexample to claim C6: F6demo was built with n_neighbors = 5 and
candidates_scale = 1 over a two-point dataset; querying with the override
n_neighbors = 2 makes the claimed candidate request 2 x 1 = 2, which the
two-point dataset could satisfy, yet the call fails because the code
computes n_candidates from the construction-time self.n_neighbors as
5 x 1 = 5 > 2 (line 217). -/
theorem C6_counterexample :
    kneighbors F6demo [[0]] (some 2) (some "symmetric") none =
        Except.error "kth out of bounds"
      ∧ nCandidatesOf F6demo.cfg none = 5
      ∧ (some 2).getD F6demo.cfg.n_neighbors *
          (none : Option ℕ).getD F6demo.cfg.candidates_scale = 2 := by
  refine ⟨?_, ?_, ?_⟩
  · rw [kneighbors]
    norm_num [F6demo, resolveMethod, nCandidatesOf, findCandidates_sym, symCandidates,
      mapExcept, reduceInds, sketchXOf, sketchBits, bitOf, projCoords, dotProd,
      paired_hamming_distance]
  · norm_num [nCandidatesOf, F6demo]
  · norm_num [F6demo]

/-- Claim C6 as amended: the candidate selector is asked for
n_candidates = construction-time n_neighbors x effective candidates_scale
(the query-time n_neighbors override does not enter n_candidates), and every
successful per-query candidate list has exactly that many indices. -/
theorem C6_candidates_count (F : Fitted) (X : List (List ℚ)) (m : String)
    (cs? : Option ℕ) (css : List (List ℕ))
    (h : findCandidates F X m (nCandidatesOf F.cfg cs?) = Except.ok css) :
    ∀ c ∈ css, c.length = F.cfg.n_neighbors * cs?.getD F.cfg.candidates_scale :=
  findCandidates_ok_length F X m _ css h

/-- Witness for the amended C6 on the symmetric-built index F5demo: the one
successful candidate row has length 1 x 1. -/
theorem C6_witness :
    ([(0 : ℕ)] : List ℕ).length =
      F5demo.cfg.n_neighbors * (none : Option ℕ).getD F5demo.cfg.candidates_scale :=
  C6_candidates_count F5demo [[1 / 2]] "symmetric" none [[0]] (by
    rw [findCandidates_sym]
    norm_num [F5demo, symCandidates, nCandidatesOf, mapExcept, reduceInds, rankAll,
      withIdx, sortPairs, insertPair, sketchXOf, sketchBits, bitOf, projCoords,
      dotProd, paired_hamming_distance])
    [0] (List.mem_singleton.mpr rfl)

/-- Counterexample to claim C7: on F7demo the grouped prefilter admits a
single dataset row while n_candidates = 2, and kneighbors raises the
argpartition out-of-bounds error instead of returning the single admitted
point as the candidate set. -/
theorem C7_counterexample :
    kneighbors F7demo [[1 / 2]] none none none = Except.error "kth out of bounds" := by
  rw [kneighbors]
  norm_num [F7demo, resolveMethod, nCandidatesOf, findCandidates_gasym, gasymCandidates,
    mapExcept, reduceInds, sketchXOf, gSketchXOf, sketchBits, sketchWeights, bitOf,
    weightOf, ceil_via_floor, -Int.self_sub_floor, projCoords, dotProd, selectR,
    admittedOf, idxWhere, querySketchPacked, packRow, paired_asymmetric_distance,
    unpackBit, unpackWeight, intsToQ]

/-- Claim C7 as amended: under the grouped asymmetric strategy, when the
prefilter admits fewer dataset rows than n_candidates, the call fails with
the argpartition out-of-bounds error rather than silently returning the
admitted rows. -/
theorem C7_underfull_errors (F : Fitted) (q : List ℚ) (nn? : Option ℕ)
    (qm : Option String) (cs? : Option ℕ)
    (hm : F.cfg.sketch_method = some "g_asymmetric")
    (hlt : (admittedOf (sketchBits (projCoords F.gA F.gb F.cfg.g_strip_window q))
        (selectR (sketchWeights (projCoords F.gA F.gb F.cfg.g_strip_window q))
          F.cfg.group_threshold) (gSketchXOf F)).length < nCandidatesOf F.cfg cs?) :
    kneighbors F [q] nn? qm cs? = Except.error "kth out of bounds" := by
  have herr := reduceInds_err
    ((admittedOf (sketchBits (projCoords F.gA F.gb F.cfg.g_strip_window q))
        (selectR (sketchWeights (projCoords F.gA F.gb F.cfg.g_strip_window q))
          F.cfg.group_threshold) (gSketchXOf F)).map (fun d =>
      paired_asymmetric_distance (querySketchPacked F q)
        (intsToQ ((sketchXOf F).getD d []))))
    (nCandidatesOf F.cfg cs?) (by rw [List.length_map]; exact hlt)
  unfold kneighbors
  rw [hm]
  simp only [resolveMethod, Option.isSome_some, if_true]
  rw [findCandidates_gasym]
  simp only [gasymCandidates, mapExcept, herr]

/-- Witness for the amended C7 at the concrete underfull instance F7demo. -/
theorem C7_witness :
    kneighbors F7demo [[1 / 2]] (some 2) none none = Except.error "kth out of bounds" :=
  C7_underfull_errors F7demo [1 / 2] (some 2) none none rfl (by
    norm_num [F7demo, admittedOf, idxWhere, selectR, sketchBits, sketchWeights, bitOf,
      weightOf, ceil_via_floor, -Int.self_sub_floor, projCoords, dotProd, gSketchXOf,
      nCandidatesOf])

/-- Counterexample to claim C8: a construction whose numeric parameters are
all out of the claimed ranges (n_neighbors 0, sketch_size 0, strip_window
negative, candidates_scale 0, group_threshold 7/10 above 1/2) but whose
sketch_method is known succeeds without any configuration error; __init__
validates only sketch_method. -/
theorem C8_counterexample :
    skInit 0 (some "symmetric") 0 (-1) 0 2 (7 / 10) =
      Except.ok ⟨0, some "symmetric", 0, -1, 0, 2, 7 / 10, 0⟩ := by
  norm_num [skInit, validMethod]

/-- Claim C8 as amended: construction fails exactly when sketch_method is an
unknown value (the eager ValueError of lines 126 to 127) or group_size is
zero (the division computing g_strip_window at line 105 raises); every other
parameter value, in range or not, is accepted without validation. -/
theorem C8_init_method_only (n : ℕ) (m : Option String) (s : ℕ) (w : ℚ)
    (c g : ℕ) (t : ℚ) :
    (∃ cfg, skInit n m s w c g t = Except.ok cfg) ↔
      (g ≠ 0 ∧ validMethod m = true) := by
  unfold skInit
  by_cases hg : g = 0
  · simp [hg]
  · by_cases hv : validMethod m = true
    · simp [hg, hv]
    · simp [hg, hv]

/-- Claim C9: packing a bit b and a weight w below 1/2 as p = b + w and
unpacking with the floor and fractional part used by
paired_asymmetric_distance recovers b and w exactly. -/
theorem C9_pack_roundtrip (bq : ℤ) (w : ℚ) (hb : bq = 0 ∨ bq = 1)
    (h0 : 0 ≤ w) (h1 : w < 1 / 2) :
    unpackBit ((bq : ℚ) + w) = bq ∧ unpackWeight ((bq : ℚ) + w) = w := by
  have hf : Int.floor ((bq : ℚ) + w) = bq := floor_bit_add bq w h0 (by linarith)
  constructor
  · exact hf
  · rw [unpackWeight, hf]
    ring

/-- Witness for C9 at bit 1 and weight 1/3. -/
theorem C9_witness :
    unpackBit (((1 : ℤ) : ℚ) + 1 / 3) = 1 ∧ unpackWeight (((1 : ℤ) : ℚ) + 1 / 3) = 1 / 3 :=
  C9_pack_roundtrip 1 (1 / 3) (Or.inr rfl) (by norm_num) (by norm_num)

/-- Claim C10: with a fixed integer seed, two successive builds on the same
data produce identical projection bases (A, b, group A, group b) and hence
identical sketch bits and weights for the whole dataset; check_random_state
reseeds a fresh stream from the integer seed, so the second build (run from
the world state left by the first) repeats the first exactly. -/
theorem C10_determinism (stream : ℤ → ℕ → ℚ) (w : World) (seed : ℤ)
    (invSqrtD : ℚ) (S D G : ℕ) (sw gsw : ℚ) (X : List (List ℚ)) :
    (partitionModel stream
        ((partitionModel stream w (some seed) invSqrtD S D G sw gsw).2)
        (some seed) invSqrtD S D G sw gsw).1
      = (partitionModel stream w (some seed) invSqrtD S D G sw gsw).1
    ∧ encodeAll (partitionModel stream
          ((partitionModel stream w (some seed) invSqrtD S D G sw gsw).2)
          (some seed) invSqrtD S D G sw gsw).1 sw gsw X
      = encodeAll (partitionModel stream w (some seed) invSqrtD S D G sw gsw).1
          sw gsw X :=
  ⟨rfl, rfl⟩
